import Mathlib

/-!
Verification of the selector builder, JSON bridge and rectangle factory of
src/05-objects-tasks.js, shallowly embedded in Lean.
-/

namespace CoreJs

/-- One CSS simple-selector fragment, as built by the chaining methods of
CssSelectorBuilder: a text payload (value), the literal glyph rendered before
it (unit), the element-kind flag (tag) and the order rank (specific). -/
structure Fragment where
  value : String
  unit : String
  tag : Bool
  specific : Nat
deriving DecidableEq

/-- The two error kinds thrown by the builder checks. -/
inductive BuilderError where
  | duplicatePart
  | outOfOrder
deriving DecidableEq

/-- The literal message attached to each thrown Error in the source. -/
def BuilderError.message : BuilderError → String
  | .duplicatePart => "Element, id and pseudo-element should not occur more then one time inside the selector"
  | .outOfOrder => "Selector parts should be arranged in the following order: element, id, class, attribute, pseudo-class, pseudo-element"

/-- CssSelectorBuilder.checkOneOfType: the appended fragment is one-of-a-kind
when it is an element, a pseudo-element or an id; the find callback is the
literal predicate of the source. -/
def checkOneOfType (elems : List Fragment) (current : Fragment) : Except BuilderError Unit :=
  let oneType := current.tag == true || current.unit == "::" || current.unit == "#"
  if oneType then
    match elems.find? (fun el => (el.tag == current.tag && el.unit == current.unit) || el.unit == current.unit) with
    | some _ => .error .duplicatePart
    | none => .ok ()
  else
    .ok ()

/-- The comparison Array.prototype.sort is called with in checkOrder: ascending
by the specific rank. -/
def bySpecific (a b : Fragment) : Prop := a.specific ≤ b.specific

instance : DecidableRel bySpecific := fun a b => Nat.decLe a.specific b.specific

instance : IsTotal Fragment bySpecific := ⟨fun a b => Nat.le_total a.specific b.specific⟩

instance : IsTrans Fragment bySpecific := ⟨fun _ _ _ h h2 => Nat.le_trans h h2⟩

/-- CssSelectorBuilder.checkOrder: sort a copy of the appended list by the
specific field (Array.prototype.sort with a numeric comparator is a stable
ascending sort, modelled by the stable insertionSort; only the mapped ranks of
the result are compared, which every ascending sort renders identically), keep
the truthy entries (every object is truthy), map to the specific ranks, and
compare against the append order, both joined into one digit string with no
separator. -/
def checkOrder (elems : List Fragment) (current : Fragment) : Except BuilderError Unit :=
  let items := elems ++ [current]
  let etalonOrder :=
    ((items.insertionSort bySpecific).filter (fun _ => true)).map
      (fun item => item.specific)
  let currentOrder := items.map (fun item => item.specific)
  if String.join (etalonOrder.map (fun n => Nat.repr n)) ≠ String.join (currentOrder.map (fun n => Nat.repr n)) then
    .error .outOfOrder
  else
    .ok ()

/-- One chaining call of the source, with its text argument. -/
inductive Call where
  | element (s : String)
  | id (s : String)
  | cls (s : String)
  | attr (s : String)
  | pseudoClass (s : String)
  | pseudoElement (s : String)
deriving DecidableEq

/-- The object literal each chaining method passes to the constructor. -/
def Call.frag : Call → Fragment
  | .element s => ⟨s, "", true, 0⟩
  | .id s => ⟨s, "#", false, 1⟩
  | .cls s => ⟨s, ".", false, 2⟩
  | .attr s => ⟨"[" ++ s ++ "]", "", false, 3⟩
  | .pseudoClass s => ⟨s, ":", false, 4⟩
  | .pseudoElement s => ⟨s, "::", false, 5⟩

/-- Extending an already created chain: the constructor runs checkOneOfType,
then checkOrder, and only then pushes the fragment onto the elems array. -/
def extendChain (elems : List Fragment) (c : Call) : Except BuilderError (List Fragment) := do
  checkOneOfType elems c.frag
  checkOrder elems c.frag
  pure (elems ++ [c.frag])

/-- Starting a chain from the facade: the constructor replaces the copied elems
field with a fresh empty array and pushes the fragment, with no checks. -/
def startChain (c : Call) : List Fragment := [c.frag]

/-- Successive chaining calls on a chain whose elems array holds the given
fragments; the first failing call aborts the chain. -/
def runChainFrom (elems : List Fragment) : List Call → Except BuilderError (List Fragment)
  | [] => .ok elems
  | c :: cs =>
    match extendChain elems c with
    | .error e => .error e
    | .ok elems2 => runChainFrom elems2 cs

/-- A whole chain of calls: the first call on the facade, the rest on the
successive chain contexts. -/
def runChain (first : Call) (rest : List Call) : Except BuilderError (List Fragment) :=
  runChainFrom (startChain first) rest

/-- The text produced by stringify from a given elems array: unit followed by
value for each fragment, joined with no separator. -/
def render (elems : List Fragment) : String :=
  String.join (elems.map (fun el => el.unit ++ el.value))

/-- CssSelectorBuilder.stringify: copy the elems array, set its length to 0,
return the rendered copy. The pair holds the returned string and the content
of the elems array after the call. -/
def stringify (elems : List Fragment) : String × List Fragment :=
  (render elems, [])

/-- The mutable store of the runtime: every elems array ever allocated, indexed
by allocation order. Index 0 is the array owned by the facade singleton
cssSelectorBuilder. -/
structure BuilderState where
  arrays : List (List Fragment)
deriving DecidableEq

/-- The state right after the module initializes cssSelectorBuilder. -/
def initState : BuilderState := ⟨[[]]⟩

/-- The facade singleton owns the array at index 0. -/
def facadeRef : Nat := 0

/-- Read the array a context references. -/
def readRef (st : BuilderState) (r : Nat) : List Fragment :=
  st.arrays.getD r []

/-- Overwrite the array a context references. -/
def writeRef (st : BuilderState) (r : Nat) (a : List Fragment) : BuilderState :=
  ⟨st.arrays.set r a⟩

/-- Allocate a fresh array, returning its reference. -/
def alloc (st : BuilderState) (a : List Fragment) : BuilderState × Nat :=
  (⟨st.arrays ++ [a]⟩, st.arrays.length)

/-- A chaining method called on the facade: the constructor spread copies the
facade fields, but since the copy carries no created flag it replaces elems
with a brand new array, pushes the fragment into it and returns the fresh
context; the facade array is neither read nor written. -/
def facadeCall (st : BuilderState) (c : Call) : BuilderState × Nat :=
  alloc st [c.frag]

/-- A chaining method called on an already created chain context: the spread
copies the elems reference, the checks run against the shared array, and on
success the fragment is pushed into that same shared array; the returned
context references the very array of the receiver. On failure the throw
happens before the push, so the store is untouched. -/
def chainCall (st : BuilderState) (r : Nat) (c : Call) : BuilderState × Except BuilderError Nat :=
  match extendChain (readRef st r) c with
  | .error e => (st, .error e)
  | .ok elems => (writeRef st r elems, .ok r)

/-- stringify on a chain context: render the referenced array, then set its
length to 0 in place. -/
def stringifyOp (st : BuilderState) (r : Nat) : BuilderState × String :=
  (writeRef st r [], render (readRef st r))

/-- An argument to combine: a literal combinator token, or a selector whose
stringify is called eagerly (given here by the content of its elems array). -/
inductive CombineArg where
  | str (s : String)
  | sel (elems : List Fragment)

/-- The result object of combine: the precomputed data pieces. -/
structure Combined where
  data : List String

/-- CssSelectorBuilder.combine: map each argument eagerly, a string token to
the token wrapped in one space on each side, a selector to its stringify text. -/
def combine (args : List CombineArg) : Combined :=
  ⟨args.map (fun a =>
    match a with
    | .str s => " " ++ s ++ " "
    | .sel elems => (stringify elems).1)⟩

/-- stringify on the combine result: join the precomputed pieces with no
separator (flat is the identity on a flat array of strings). -/
def Combined.stringify (c : Combined) : String :=
  String.join c.data

/-- The fragment kinds named by the spec. -/
inductive Kind where
  | element
  | id
  | cls
  | attr
  | pseudoClass
  | pseudoElement
deriving DecidableEq

/-- The kind of fragment a call appends. -/
def Call.kind : Call → Kind
  | .element _ => .element
  | .id _ => .id
  | .cls _ => .cls
  | .attr _ => .attr
  | .pseudoClass _ => .pseudoClass
  | .pseudoElement _ => .pseudoElement

/-- One-of-a-kind fragment kinds: element, id and pseudo-element. -/
def Kind.oneOfAKind : Kind → Bool
  | .element => true
  | .id => true
  | .pseudoElement => true
  | _ => false

/-- The per-kind rendering table stated by the spec: the glyph followed by the
value, the attribute value wrapped in brackets. -/
def Call.rendered : Call → String
  | .element s => s
  | .id s => "#" ++ s
  | .cls s => "." ++ s
  | .attr s => "[" ++ s ++ "]"
  | .pseudoClass s => ":" ++ s
  | .pseudoElement s => "::" ++ s

/-- The Rectangle factory result: an object with the two fields and the
precomputed area the getArea closure returns (the closure captures the
constructor arguments, which never change). -/
structure RectangleObj where
  width : Int
  height : Int
  getArea : Int
deriving DecidableEq

/-- The Rectangle factory of the source: no validation, no error. -/
def Rectangle (width height : Int) : RectangleObj :=
  { width := width, height := height, getArea := width * height }

/-- Scenario: the store after the chain a is started by facade.element(e). -/
def aliasSt1 : BuilderState := (facadeCall initState (.element "e")).1

/-- Scenario: the reference held by the chain a. -/
def aliasRa : Nat := (facadeCall initState (.element "e")).2

/-- Scenario: extending a with id(x), giving the chain b. -/
def aliasStep : BuilderState × Except BuilderError Nat := chainCall aliasSt1 aliasRa (.id "x")

/-! The JSON bridge. getJSON and fromJSON of the source delegate to
JSON.stringify, JSON.parse and Object.setPrototypeOf, standard-library
builtins whose code is not part of the repository; they are modelled from the
spec below. -/

/-- Modelled from the spec: the cycle-free JSON-representable plain values that
getJSON and fromJSON exchange (JSON.stringify and JSON.parse are builtins
absent from the source; the spec asks for standard round-trippable encoding
rules, object property order being insertion order and arrays preserving
element order). Numbers are modelled as integers. -/
inductive JsonValue where
  | null : JsonValue
  | bool (b : Bool) : JsonValue
  | num (n : Int) : JsonValue
  | str (s : String) : JsonValue
  | arr (items : List JsonValue) : JsonValue
  | obj (fields : List (String × JsonValue)) : JsonValue

/-- Modelled from the spec: the escaping the encoder applies inside a string
literal, for the two characters it itself emits as delimiters. -/
def escapeChars : List Char → List Char
  | [] => []
  | c :: cs => if c = '"' ∨ c = '\\' then '\\' :: c :: escapeChars cs else c :: escapeChars cs

/-- The decimal digit characters of a natural number, least significant first;
the fuel makes the extraction structural and any fuel at least n is enough. -/
def digitsRev : Nat → Nat → List Char
  | 0, _ => []
  | fuel + 1, n => if n = 0 then [] else Nat.digitChar (n % 10) :: digitsRev fuel (n / 10)

/-- The decimal digits of a natural number, most significant first. -/
def natChars (n : Nat) : List Char :=
  if n = 0 then ['0'] else (digitsRev n n).reverse

/-- The decimal rendering of an integer. -/
def intChars : Int → List Char
  | .ofNat n => natChars n
  | .negSucc n => '-' :: natChars (n + 1)

/-- A bracketed piece of output: the opener, the body, the closer. -/
def bracket (opener : Char) (body : List Char) (closer : Char) : List Char :=
  opener :: body ++ [closer]

mutual

/-- Modelled from the spec: JSON.stringify, the canonical structured-text
encoding, with no whitespace. -/
def serV : JsonValue → List Char
  | .null => "null".data
  | .bool true => "true".data
  | .bool false => "false".data
  | .num n => intChars n
  | .str s => bracket '"' (escapeChars s.data) '"'
  | .arr items => bracket '[' (serItems items) ']'
  | .obj fields => bracket '{' (serFields fields) '}'

/-- Array elements joined with commas. -/
def serItems : List JsonValue → List Char
  | [] => []
  | [x] => serV x
  | x :: xs => serV x ++ ',' :: serItems xs

/-- Object fields, each a quoted key, a colon and a value, joined with commas. -/
def serFields : List (String × JsonValue) → List Char
  | [] => []
  | [(k, v)] => '"' :: escapeChars k.data ++ '"' :: ':' :: serV v
  | (k, v) :: fs => '"' :: escapeChars k.data ++ '"' :: ':' :: serV v ++ ',' :: serFields fs

end

/-- The body of a string literal: consume up to the closing quote, unescaping. -/
def goStr : List Char → Option (List Char × List Char)
  | [] => none
  | c :: rest =>
    if c = '\\' then
      match rest with
      | [] => none
      | c2 :: rest2 =>
        match goStr rest2 with
        | none => none
        | some (cs, r) => some (c2 :: cs, r)
    else if c = '"' then some ([], rest)
    else
      match goStr rest with
      | none => none
      | some (cs, r) => some (c :: cs, r)

/-- The numeric value of one decimal digit character. -/
def digitVal (c : Char) : Nat := c.toNat - 48

/-- A nonempty run of decimal digits, read as a natural number. -/
def parseNatChars (input : List Char) : Option (Nat × List Char) :=
  let ds := input.takeWhile (fun c => c.isDigit)
  let rest := input.dropWhile (fun c => c.isDigit)
  if ds.isEmpty then none
  else some (ds.foldl (fun acc c => 10 * acc + digitVal c) 0, rest)

mutual

/-- Modelled from the spec: JSON.parse, a recursive-descent reader of the
encoding serV emits; the fuel bounds the nesting depth and fromJSON supplies
enough of it for any input text. -/
def parseV : Nat → List Char → Option (JsonValue × List Char)
  | 0, _ => none
  | fuel + 1, input =>
    match input with
    | [] => none
    | c :: rest =>
      if c = 'n' then
        match rest with
        | 'u' :: 'l' :: 'l' :: r => some (.null, r)
        | _ => none
      else if c = 't' then
        match rest with
        | 'r' :: 'u' :: 'e' :: r => some (.bool true, r)
        | _ => none
      else if c = 'f' then
        match rest with
        | 'a' :: 'l' :: 's' :: 'e' :: r => some (.bool false, r)
        | _ => none
      else if c = '"' then
        match goStr rest with
        | none => none
        | some (cs, r) => some (.str (String.mk cs), r)
      else if c = '[' then
        match parseItems fuel rest with
        | none => none
        | some (vs, r) => some (.arr vs, r)
      else if c = '{' then
        match parseFields fuel rest with
        | none => none
        | some (fs, r) => some (.obj fs, r)
      else if c = '-' then
        match parseNatChars rest with
        | none => none
        | some (m, r) => some (.num (-(m : Int)), r)
      else
        match parseNatChars (c :: rest) with
        | none => none
        | some (m, r) => some (.num (m : Int), r)

/-- The elements of an array up to the closing bracket. -/
def parseItems : Nat → List Char → Option (List JsonValue × List Char)
  | 0, _ => none
  | fuel + 1, input =>
    if input.head? = some ']' then some ([], input.tail)
    else
      match parseV fuel input with
      | none => none
      | some (v, r) =>
        match r with
        | ',' :: r2 =>
          match parseItems fuel r2 with
          | none => none
          | some (vs, r3) => some (v :: vs, r3)
        | ']' :: r2 => some ([v], r2)
        | _ => none

/-- The fields of an object up to the closing brace. -/
def parseFields : Nat → List Char → Option (List (String × JsonValue) × List Char)
  | 0, _ => none
  | fuel + 1, input =>
    if input.head? = some '}' then some ([], input.tail)
    else
      match input with
      | '"' :: rest =>
        match goStr rest with
        | none => none
        | some (cs, r) =>
          match r with
          | ':' :: r2 =>
            match parseV fuel r2 with
            | none => none
            | some (v, r3) =>
              match r3 with
              | ',' :: r4 =>
                match parseFields fuel r4 with
                | none => none
                | some (fs, r5) => some ((String.mk cs, v) :: fs, r5)
              | '}' :: r4 => some ([(String.mk cs, v)], r4)
              | _ => none
          | _ => none
      | _ => none

end

mutual

/-- A structural size bounding the parser fuel a value needs. -/
def jsize : JsonValue → Nat
  | .null => 1
  | .bool _ => 1
  | .num _ => 1
  | .str _ => 1
  | .arr items => 1 + jsizeItems items
  | .obj fields => 1 + jsizeFields fields

/-- Fuel needed by parseItems. -/
def jsizeItems : List JsonValue → Nat
  | [] => 1
  | x :: xs => max (jsize x) (jsizeItems xs) + 1

/-- Fuel needed by parseFields. -/
def jsizeFields : List (String × JsonValue) → Nat
  | [] => 1
  | (_, v) :: fs => max (jsize v) (jsizeFields fs) + 1

end

/-- getJSON of the source: JSON.stringify. -/
def getJSON (v : JsonValue) : String := String.mk (serV v)

/-- The result of fromJSON: the parsed plain data together with the operations
of the prototype the object is rewired to respond to. -/
structure ProtoObj where
  data : JsonValue
  proto : List String

/-- An object responds to an operation when the operation is defined on the
prototype attached to it. -/
def RespondsTo (o : ProtoObj) (op : String) : Prop := op ∈ o.proto

/-- fromJSON of the source: JSON.parse of the whole text, then
Object.setPrototypeOf attaching the prototype; none models the ParseError on
text the reader rejects. -/
def fromJSON (proto : List String) (json : String) : Option ProtoObj :=
  match parseV (json.data.length + 1) json.data with
  | none => none
  | some (v, rest) => if rest = [] then some ⟨v, proto⟩ else none

/-! Helper lemmas. -/

theorem getD_set_self {α : Type} (l : List α) (d : α) :
    ∀ (r : Nat) (a : α), r < l.length → (l.set r a).getD r d = a := by
  induction l with
  | nil => intro r a h; simp at h
  | cons x xs ih =>
    intro r a h
    cases r with
    | zero => simp [List.set]
    | succ n => simpa [List.set] using ih n a (by simpa using h)

theorem getD_set_ne {α : Type} (l : List α) (d : α) :
    ∀ (r r' : Nat) (a : α), r ≠ r' → (l.set r a).getD r' d = l.getD r' d := by
  induction l with
  | nil => intro r r' a _; simp [List.set]
  | cons x xs ih =>
    intro r r' a h
    cases r with
    | zero =>
      cases r' with
      | zero => exact absurd rfl h
      | succ n => simp [List.set]
    | succ m =>
      cases r' with
      | zero => simp [List.set]
      | succ n => simpa [List.set] using ih m n a (fun he => h (by rw [he]))

theorem getD_set_same_default {α : Type} (l : List α) (d : α) :
    ∀ r : Nat, (l.set r d).getD r d = d := by
  induction l with
  | nil => intro r; simp [List.set]
  | cons x xs ih =>
    intro r
    cases r with
    | zero => simp [List.set]
    | succ n => simpa [List.set] using ih n

theorem getD_append_singleton_ne {α : Type} (l : List α) (d a : α) :
    ∀ r : Nat, r ≠ l.length → (l ++ [a]).getD r d = l.getD r d := by
  induction l with
  | nil =>
    intro r h
    cases r with
    | zero => exact absurd rfl h
    | succ n => simp
  | cons x xs ih =>
    intro r h
    cases r with
    | zero => simp
    | succ n => simpa using ih n (fun he => h (by simp [he]))

/-- The two checks of the constructor, sequenced as in extendChain, written as
an explicit cascade. -/
theorem extendChain_eq (elems : List Fragment) (c : Call) :
    extendChain elems c =
      (match checkOneOfType elems c.frag with
       | .error e => .error e
       | .ok _ =>
         match checkOrder elems c.frag with
         | .error e => .error e
         | .ok _ => .ok (elems ++ [c.frag])) := by
  unfold extendChain
  cases checkOneOfType elems c.frag <;> cases checkOrder elems c.frag <;> rfl

theorem extendChain_ok {elems out : List Fragment} {c : Call}
    (h : extendChain elems c = .ok out) : out = elems ++ [c.frag] := by
  rw [extendChain_eq] at h
  cases h1 : checkOneOfType elems c.frag with
  | error e => rw [h1] at h; simp at h
  | ok u =>
    rw [h1] at h
    cases h2 : checkOrder elems c.frag with
    | error e => rw [h2] at h; simp at h
    | ok u2 => rw [h2] at h; simp at h; exact h.symm

theorem runChainFrom_ok :
    ∀ (rest : List Call) (acc elems : List Fragment),
      runChainFrom acc rest = .ok elems → elems = acc ++ rest.map Call.frag := by
  intro rest
  induction rest with
  | nil => intro acc elems h; simp [runChainFrom] at h; simp [h]
  | cons c cs ih =>
    intro acc elems h
    simp only [runChainFrom] at h
    cases hx : extendChain acc c with
    | error e => rw [hx] at h; simp at h
    | ok acc2 =>
      rw [hx] at h
      have := ih acc2 elems h
      rw [this, extendChain_ok hx]
      simp

theorem runChain_ok {first : Call} {rest : List Call} {elems : List Fragment}
    (h : runChain first rest = .ok elems) : elems = (first :: rest).map Call.frag := by
  unfold runChain startChain at h
  simpa using runChainFrom_ok rest [first.frag] elems h

theorem frag_specific_lt (c : Call) : c.frag.specific < 10 := by
  cases c <;> simp [Call.frag]

theorem frag_rendered (c : Call) : c.frag.unit ++ c.frag.value = c.rendered := by
  cases c <;> apply String.ext <;> simp [Call.frag, Call.rendered]

/-! Digit-string machinery for the checkOrder comparison: the joined digit
strings of two lists of small ranks agree exactly when the lists agree. -/

theorem join_data (l : List String) : (String.join l).data = (l.map String.data).flatten := by
  have aux : ∀ (l : List String) (acc : String),
      (l.foldl (fun r s => r ++ s) acc).data = acc.data ++ (l.map String.data).flatten := by
    intro l
    induction l with
    | nil => intro acc; simp
    | cons s t ih => intro acc; simp [ih]
  simp [aux l ""]

theorem repr_data_of_lt (n : Nat) (h : n < 10) : (Nat.repr n).data = [Nat.digitChar n] := by
  interval_cases n <;> rfl

theorem digitChar_inj_of_lt {a b : Nat} (ha : a < 10) (hb : b < 10)
    (h : Nat.digitChar a = Nat.digitChar b) : a = b := by
  interval_cases a <;> interval_cases b <;> first | rfl | exact absurd h (by decide)

theorem map_digitChar_inj :
    ∀ (l₁ l₂ : List Nat), (∀ n ∈ l₁, n < 10) → (∀ n ∈ l₂, n < 10) →
      l₁.map Nat.digitChar = l₂.map Nat.digitChar → l₁ = l₂ := by
  intro l₁
  induction l₁ with
  | nil => intro l₂ _ _ h; cases l₂ <;> simp_all
  | cons a t ih =>
    intro l₂ h₁ h₂ h
    cases l₂ with
    | nil => simp at h
    | cons b t₂ =>
      simp only [List.map_cons, List.cons.injEq] at h
      have hab : a = b :=
        digitChar_inj_of_lt (h₁ a (by simp)) (h₂ b (by simp)) h.1
      have ht : t = t₂ :=
        ih t₂ (fun n hn => h₁ n (by simp [hn])) (fun n hn => h₂ n (by simp [hn])) h.2
      rw [hab, ht]

theorem join_repr_eq_iff (l₁ l₂ : List Nat)
    (h₁ : ∀ n ∈ l₁, n < 10) (h₂ : ∀ n ∈ l₂, n < 10) :
    String.join (l₁.map (fun n => Nat.repr n)) = String.join (l₂.map (fun n => Nat.repr n)) ↔
      l₁ = l₂ := by
  constructor
  · intro h
    have hflat : ((l₁.map (fun n => Nat.repr n)).map String.data).flatten =
        ((l₂.map (fun n => Nat.repr n)).map String.data).flatten := by
      rw [← join_data, ← join_data, h]
    have e₁ : ∀ (l : List Nat), (∀ n ∈ l, n < 10) →
        ((l.map (fun n => Nat.repr n)).map String.data).flatten = l.map Nat.digitChar := by
      intro l hl
      induction l with
      | nil => simp
      | cons a t ih =>
        simp only [List.map_cons, List.flatten_cons]
        rw [repr_data_of_lt a (hl a (by simp)), ih (fun n hn => hl n (by simp [hn]))]
        rfl
    rw [e₁ l₁ h₁, e₁ l₂ h₂] at hflat
    exact map_digitChar_inj l₁ l₂ h₁ h₂ hflat
  · intro h; rw [h]

theorem checkOrder_error_eq {elems : List Fragment} {current : Fragment} {e : BuilderError}
    (h : checkOrder elems current = .error e) : e = .outOfOrder := by
  unfold checkOrder at h
  simp only [List.filter_true] at h
  split at h
  · exact (Except.error.inj h).symm
  · simp at h

/-- The observable meaning of checkOrder: it accepts exactly the appended lists
whose ranks are already in non-decreasing order. -/
theorem checkOrder_ok_iff (elems : List Fragment) (current : Fragment)
    (hb : ∀ el ∈ elems ++ [current], el.specific < 10) :
    checkOrder elems current = .ok () ↔
      ((elems ++ [current]).map Fragment.specific).Pairwise (· ≤ ·) := by
  have hperm := List.perm_insertionSort bySpecific (elems ++ [current])
  have hbs : ∀ n ∈ ((elems ++ [current]).insertionSort bySpecific).map Fragment.specific,
      n < 10 := by
    intro n hn
    rcases List.mem_map.mp hn with ⟨el, hel, rfl⟩
    exact hb el (hperm.mem_iff.mp hel)
  have hbo : ∀ n ∈ (elems ++ [current]).map Fragment.specific, n < 10 := by
    intro n hn
    rcases List.mem_map.mp hn with ⟨el, hel, rfl⟩
    exact hb el hel
  have hjoin := join_repr_eq_iff _ _ hbs hbo
  have hmapped : (((elems ++ [current]).insertionSort bySpecific).map Fragment.specific).Pairwise
      (· ≤ ·) := by
    have hs : ((elems ++ [current]).insertionSort bySpecific).Pairwise
        (fun a b => Fragment.specific a ≤ Fragment.specific b) :=
      List.sorted_insertionSort bySpecific (elems ++ [current])
    exact List.pairwise_map.mpr hs
  unfold checkOrder
  simp only [List.filter_true]
  constructor
  · intro h
    by_cases hne :
        String.join ((((elems ++ [current]).insertionSort bySpecific).map
            (fun item => item.specific)).map (fun n => Nat.repr n)) ≠
          String.join (((elems ++ [current]).map (fun item => item.specific)).map
            (fun n => Nat.repr n))
    · rw [if_pos hne] at h
      simp at h
    · rw [Classical.not_not] at hne
      have heq := hjoin.mp hne
      rw [heq] at hmapped
      exact hmapped
  · intro hp
    have hp2 := List.pairwise_map.mp hp
    have hsorted : (elems ++ [current]).insertionSort bySpecific = elems ++ [current] :=
      List.Sorted.insertionSort_eq hp2
    rw [hsorted]
    simp

/-! Lemmas for the JSON bridge: decimal digits, string escaping, and the
round trip of the reader over the encoder. -/

theorem digitsRev_eq : ∀ (fuel n : Nat), n ≤ fuel →
    digitsRev fuel n = (Nat.digits 10 n).map Nat.digitChar := by
  intro fuel
  induction fuel with
  | zero =>
    intro n h
    interval_cases n
    simp [digitsRev]
  | succ f ih =>
    intro n h
    by_cases h0 : n = 0
    · subst h0
      simp [digitsRev]
    · rw [digitsRev, if_neg h0,
        Nat.digits_def' (by norm_num : (1 : Nat) < 10) (Nat.pos_of_ne_zero h0)]
      simp only [List.map_cons]
      congr 1
      have hdiv : n / 10 < n := Nat.div_lt_self (Nat.pos_of_ne_zero h0) (by norm_num)
      exact ih (n / 10) (by omega)

theorem natChars_eq (n : Nat) :
    natChars n = if n = 0 then ['0'] else ((Nat.digits 10 n).map Nat.digitChar).reverse := by
  by_cases h : n = 0
  · simp [natChars, h]
  · simp [natChars, h, digitsRev_eq n n le_rfl]

theorem digitChar_isDigit {d : Nat} (h : d < 10) : (Nat.digitChar d).isDigit = true := by
  interval_cases d <;> decide

theorem digitVal_digitChar {d : Nat} (h : d < 10) : digitVal (Nat.digitChar d) = d := by
  interval_cases d <;> decide

theorem ne_of_isDigit {c c2 : Char} (h : c.isDigit = true) (h2 : c2.isDigit = false) :
    c ≠ c2 := by
  intro he
  rw [he, h2] at h
  cases h

theorem natChars_all_digit (n : Nat) : ∀ c ∈ natChars n, c.isDigit = true := by
  rw [natChars_eq]
  by_cases h : n = 0
  · rw [if_pos h]
    intro c hc
    simp at hc
    rw [hc]
    decide
  · rw [if_neg h]
    intro c hc
    rw [List.mem_reverse] at hc
    rcases List.mem_map.mp hc with ⟨d, hd, rfl⟩
    exact digitChar_isDigit (Nat.digits_lt_base (by norm_num) hd)

theorem natChars_cons (n : Nat) :
    ∃ c cs, natChars n = c :: cs ∧ c.isDigit = true := by
  cases hn : natChars n with
  | nil =>
    exfalso
    rw [natChars_eq] at hn
    by_cases h : n = 0
    · rw [if_pos h] at hn; cases hn
    · rw [if_neg h] at hn
      have hne : Nat.digits 10 n ≠ [] := Nat.digits_ne_nil_iff_ne_zero.mpr h
      simp at hn
      exact hne hn
  | cons c cs =>
    refine ⟨c, cs, rfl, ?_⟩
    exact natChars_all_digit n c (by rw [hn]; simp)

theorem takeWhile_dropWhile_exact (p : Char → Bool) :
    ∀ (l r : List Char), (∀ c ∈ l, p c = true) → (∀ c, r.head? = some c → p c = false) →
      (l ++ r).takeWhile p = l ∧ (l ++ r).dropWhile p = r := by
  intro l
  induction l with
  | nil =>
    intro r _ hr
    cases r with
    | nil => simp
    | cons c r2 =>
      have := hr c (by simp)
      simp [List.takeWhile_cons, List.dropWhile_cons, this]
  | cons c l2 ih =>
    intro r hl hr
    have hc := hl c (by simp)
    have := ih r (fun x hx => hl x (by simp [hx])) hr
    simp [List.takeWhile_cons, List.dropWhile_cons, hc, this.1, this.2]

theorem foldl_digitChars :
    ∀ (l : List Nat) (acc : Nat), (∀ d ∈ l, d < 10) →
      (l.map Nat.digitChar).foldl (fun a c => 10 * a + digitVal c) acc =
        l.foldl (fun a d => 10 * a + d) acc := by
  intro l
  induction l with
  | nil => intro acc _; rfl
  | cons d l2 ih =>
    intro acc hl
    simp only [List.map_cons, List.foldl_cons]
    rw [digitVal_digitChar (hl d (by simp))]
    exact ih _ (fun x hx => hl x (by simp [hx]))

theorem foldl_reverse_ofDigits :
    ∀ l : List Nat, l.reverse.foldl (fun a d => 10 * a + d) 0 = Nat.ofDigits 10 l := by
  intro l
  induction l with
  | nil => rfl
  | cons d l2 ih =>
    rw [List.reverse_cons, List.foldl_append, ih, Nat.ofDigits_cons]
    simp only [List.foldl_cons, List.foldl_nil]
    omega

theorem foldl_natChars (n : Nat) :
    (natChars n).foldl (fun a c => 10 * a + digitVal c) 0 = n := by
  rw [natChars_eq]
  by_cases h : n = 0
  · rw [if_pos h, h]
    rfl
  · rw [if_neg h, ← List.map_reverse, foldl_digitChars _ _
      (fun d hd => Nat.digits_lt_base (by norm_num) (List.mem_reverse.mp hd)),
      foldl_reverse_ofDigits, Nat.ofDigits_digits]

theorem parseNat_natChars (n : Nat) (rest : List Char)
    (hrest : ∀ c, rest.head? = some c → c.isDigit = false) :
    parseNatChars (natChars n ++ rest) = some (n, rest) := by
  have hsplit := takeWhile_dropWhile_exact (fun c => c.isDigit) (natChars n) rest
    (natChars_all_digit n) hrest
  unfold parseNatChars
  rw [hsplit.1, hsplit.2]
  rcases natChars_cons n with ⟨c, cs, hc, _⟩
  rw [if_neg (by rw [hc]; simp)]
  rw [foldl_natChars]

theorem goStr_escape :
    ∀ (cs rest : List Char), goStr (escapeChars cs ++ '"' :: rest) = some (cs, rest) := by
  intro cs
  induction cs with
  | nil =>
    intro rest
    show goStr ('"' :: rest) = some ([], rest)
    cases rest <;> rfl
  | cons c cs2 ih =>
    intro rest
    by_cases h : c = '"' ∨ c = '\\'
    · rw [show escapeChars (c :: cs2) = '\\' :: c :: escapeChars cs2 by
        simp [escapeChars, h]]
      have hstep : goStr ('\\' :: c :: (escapeChars cs2 ++ '"' :: rest)) =
          match goStr (escapeChars cs2 ++ '"' :: rest) with
          | none => none
          | some (cs, r) => some (c :: cs, r) := rfl
      rw [List.cons_append, List.cons_append, hstep, ih rest]
    · push_neg at h
      rw [show escapeChars (c :: cs2) = c :: escapeChars cs2 by
        simp [escapeChars, h.1, h.2]]
      rw [List.cons_append]
      obtain ⟨x0, X, hX⟩ : ∃ x0 X, escapeChars cs2 ++ '"' :: rest = x0 :: X := by
        cases hE : escapeChars cs2 with
        | nil => exact ⟨'"', rest, by simp⟩
        | cons e es => exact ⟨e, es ++ '"' :: rest, by simp⟩
      have hgo := ih rest
      rw [hX] at hgo ⊢
      rw [goStr.eq_def]
      simp [h.1, h.2, hgo]

theorem serV_head (v : JsonValue) : ∃ c cs, serV v = c :: cs ∧ c ≠ ']' ∧ c ≠ '}' := by
  cases v with
  | null => exact ⟨'n', _, rfl, by decide, by decide⟩
  | bool b =>
    cases b with
    | false => exact ⟨'f', _, rfl, by decide, by decide⟩
    | true => exact ⟨'t', _, rfl, by decide, by decide⟩
  | num n =>
    cases n with
    | ofNat m =>
      rcases natChars_cons m with ⟨c, cs, hc, hd⟩
      exact ⟨c, cs, by simp [serV, intChars, hc],
        ne_of_isDigit hd (by decide), ne_of_isDigit hd (by decide)⟩
    | negSucc m =>
      exact ⟨'-', natChars (m + 1), by simp [serV, intChars], by decide, by decide⟩
  | str s => exact ⟨'"', _, rfl, by decide, by decide⟩
  | arr items => exact ⟨'[', _, rfl, by decide, by decide⟩
  | obj fields => exact ⟨'{', _, rfl, by decide, by decide⟩

theorem jsize_pos : ∀ v : JsonValue, 1 ≤ jsize v := by
  intro v
  cases v <;> simp [jsize]

theorem jsizeItems_pos : ∀ xs : List JsonValue, 1 ≤ jsizeItems xs := by
  intro xs
  cases xs <;> simp [jsizeItems]

theorem jsizeFields_pos : ∀ fs : List (String × JsonValue), 1 ≤ jsizeFields fs := by
  intro fs
  cases fs with
  | nil => simp [jsizeFields]
  | cons f fs2 =>
    rcases f with ⟨k, v⟩
    simp [jsizeFields]

theorem string_mk_data (s : String) : String.mk s.data = s := rfl

theorem parse_serV : ∀ fuel : Nat,
    (∀ (v : JsonValue) (rest : List Char), jsize v ≤ fuel →
      (∀ c, rest.head? = some c → c.isDigit = false) →
      parseV fuel (serV v ++ rest) = some (v, rest)) ∧
    (∀ (xs : List JsonValue) (rest : List Char), jsizeItems xs ≤ fuel →
      parseItems fuel (serItems xs ++ ']' :: rest) = some (xs, rest)) ∧
    (∀ (fs : List (String × JsonValue)) (rest : List Char), jsizeFields fs ≤ fuel →
      parseFields fuel (serFields fs ++ '}' :: rest) = some (fs, rest)) := by
  intro fuel
  induction fuel with
  | zero =>
    refine ⟨?_, ?_, ?_⟩
    · intro v rest h _
      exact absurd h (by have := jsize_pos v; omega)
    · intro xs rest h
      exact absurd h (by have := jsizeItems_pos xs; omega)
    · intro fs rest h
      exact absurd h (by have := jsizeFields_pos fs; omega)
  | succ fuel ih =>
    obtain ⟨ihV, ihI, ihF⟩ := ih
    refine ⟨?_, ?_, ?_⟩
    · intro v rest hsz hrest
      cases v with
      | null => rfl
      | bool b => cases b <;> rfl
      | num n =>
        cases n with
        | ofNat m =>
          rcases natChars_cons m with ⟨c, cs, hc, hd⟩
          have h1 : serV (.num (Int.ofNat m)) ++ rest = c :: (cs ++ rest) := by
            simp [serV, intChars, hc]
          rw [h1]
          have hparse : parseNatChars (c :: (cs ++ rest)) = some (m, rest) := by
            rw [show c :: (cs ++ rest) = natChars m ++ rest by rw [hc]; rfl]
            exact parseNat_natChars m rest hrest
          rw [parseV.eq_def]
          simp [ne_of_isDigit hd (by decide : ('n' : Char).isDigit = false),
            ne_of_isDigit hd (by decide : ('t' : Char).isDigit = false),
            ne_of_isDigit hd (by decide : ('f' : Char).isDigit = false),
            ne_of_isDigit hd (by decide : ('"' : Char).isDigit = false),
            ne_of_isDigit hd (by decide : ('[' : Char).isDigit = false),
            ne_of_isDigit hd (by decide : ('{' : Char).isDigit = false),
            ne_of_isDigit hd (by decide : ('-' : Char).isDigit = false),
            hparse]
        | negSucc m =>
          have h1 : serV (.num (Int.negSucc m)) ++ rest = '-' :: (natChars (m + 1) ++ rest) := by
            simp [serV, intChars]
          rw [h1]
          have hstep : parseV (fuel + 1) ('-' :: (natChars (m + 1) ++ rest)) =
              match parseNatChars (natChars (m + 1) ++ rest) with
              | none => none
              | some (m2, r) => some (.num (-(m2 : Int)), r) := rfl
          rw [hstep, parseNat_natChars (m + 1) rest hrest]
          show some (JsonValue.num (-((m + 1 : Nat) : Int)), rest) =
            some (JsonValue.num (Int.negSucc m), rest)
          rw [show -((m + 1 : Nat) : Int) = Int.negSucc m from by
            rw [Int.negSucc_eq]; push_cast; ring]
      | str s =>
        have h1 : serV (.str s) ++ rest = '"' :: (escapeChars s.data ++ '"' :: rest) := by
          simp [serV, bracket]
        rw [h1]
        have hstep : parseV (fuel + 1) ('"' :: (escapeChars s.data ++ '"' :: rest)) =
            match goStr (escapeChars s.data ++ '"' :: rest) with
            | none => none
            | some (cs, r) => some (.str (String.mk cs), r) := rfl
        rw [hstep, goStr_escape s.data rest]
      | arr xs =>
        have h1 : serV (.arr xs) ++ rest = '[' :: (serItems xs ++ ']' :: rest) := by
          simp [serV, bracket]
        rw [h1]
        have hstep : parseV (fuel + 1) ('[' :: (serItems xs ++ ']' :: rest)) =
            match parseItems fuel (serItems xs ++ ']' :: rest) with
            | none => none
            | some (vs, r) => some (.arr vs, r) := rfl
        rw [hstep, ihI xs rest (by simp only [jsize] at hsz; omega)]
      | obj fs =>
        have h1 : serV (.obj fs) ++ rest = '{' :: (serFields fs ++ '}' :: rest) := by
          simp [serV, bracket]
        rw [h1]
        have hstep : parseV (fuel + 1) ('{' :: (serFields fs ++ '}' :: rest)) =
            match parseFields fuel (serFields fs ++ '}' :: rest) with
            | none => none
            | some (fs2, r) => some (.obj fs2, r) := rfl
        rw [hstep, ihF fs rest (by simp only [jsize] at hsz; omega)]
    · intro xs rest hsz
      cases xs with
      | nil => rfl
      | cons x xs2 =>
        rcases serV_head x with ⟨c, cs, hser, hne1, hne2⟩
        cases xs2 with
        | nil =>
          have hx : jsize x ≤ fuel := by
            rw [show jsizeItems [x] = max (jsize x) (jsizeItems ([] : List JsonValue)) + 1
              from rfl] at hsz
            have := Nat.le_max_left (jsize x) (jsizeItems ([] : List JsonValue))
            omega
          have h1 : serItems [x] ++ ']' :: rest = c :: (cs ++ ']' :: rest) := by
            simp [serItems, hser]
          rw [h1]
          have hV : parseV fuel (c :: (cs ++ ']' :: rest)) = some (x, ']' :: rest) := by
            rw [show c :: (cs ++ ']' :: rest) = serV x ++ ']' :: rest by rw [hser]; rfl]
            exact ihV x (']' :: rest) hx
              (fun c0 hc0 => by simp at hc0; subst hc0; decide)
          rw [parseItems.eq_def]
          simp [hne1, hV]
        | cons y xs3 =>
          have hx : jsize x ≤ fuel ∧ jsizeItems (y :: xs3) ≤ fuel := by
            rw [show jsizeItems (x :: y :: xs3) =
              max (jsize x) (jsizeItems (y :: xs3)) + 1 from rfl] at hsz
            constructor
            · have := Nat.le_max_left (jsize x) (jsizeItems (y :: xs3))
              omega
            · have := Nat.le_max_right (jsize x) (jsizeItems (y :: xs3))
              omega
          have h1 : serItems (x :: y :: xs3) ++ ']' :: rest =
              c :: (cs ++ (',' :: (serItems (y :: xs3) ++ ']' :: rest))) := by
            simp [serItems, hser]
          rw [h1]
          have hV : parseV fuel (c :: (cs ++ (',' :: (serItems (y :: xs3) ++ ']' :: rest)))) =
              some (x, ',' :: (serItems (y :: xs3) ++ ']' :: rest)) := by
            rw [show c :: (cs ++ (',' :: (serItems (y :: xs3) ++ ']' :: rest))) =
                serV x ++ ',' :: (serItems (y :: xs3) ++ ']' :: rest) by rw [hser]; rfl]
            exact ihV x _ hx.1 (fun c0 hc0 => by simp at hc0; subst hc0; decide)
          have hI : parseItems fuel (serItems (y :: xs3) ++ ']' :: rest) =
              some (y :: xs3, rest) := ihI (y :: xs3) rest hx.2
          rw [parseItems.eq_def]
          simp [hne1, hV, hI]
    · intro fs rest hsz
      cases fs with
      | nil => rfl
      | cons f fs2 =>
        rcases f with ⟨k, v⟩
        cases fs2 with
        | nil =>
          have hv : jsize v ≤ fuel := by
            rw [show jsizeFields [(k, v)] =
              max (jsize v) (jsizeFields ([] : List (String × JsonValue))) + 1 from rfl] at hsz
            have := Nat.le_max_left (jsize v) (jsizeFields ([] : List (String × JsonValue)))
            omega
          have h1 : serFields [(k, v)] ++ '}' :: rest =
              '"' :: (escapeChars k.data ++ '"' :: (':' :: (serV v ++ '}' :: rest))) := by
            simp [serFields]
          rw [h1]
          have hV : parseV fuel (serV v ++ '}' :: rest) = some (v, '}' :: rest) :=
            ihV v ('}' :: rest) hv (fun c0 hc0 => by simp at hc0; subst hc0; decide)
          rw [parseFields.eq_def]
          simp [goStr_escape, hV, string_mk_data]
        | cons f2 fs3 =>
          have hv : jsize v ≤ fuel ∧ jsizeFields (f2 :: fs3) ≤ fuel := by
            rw [show jsizeFields ((k, v) :: f2 :: fs3) =
              max (jsize v) (jsizeFields (f2 :: fs3)) + 1 from rfl] at hsz
            constructor
            · have := Nat.le_max_left (jsize v) (jsizeFields (f2 :: fs3))
              omega
            · have := Nat.le_max_right (jsize v) (jsizeFields (f2 :: fs3))
              omega
          have h1 : serFields ((k, v) :: f2 :: fs3) ++ '}' :: rest =
              '"' :: (escapeChars k.data ++ '"' ::
                (':' :: (serV v ++ ',' :: (serFields (f2 :: fs3) ++ '}' :: rest)))) := by
            simp [serFields]
          rw [h1]
          have hV : parseV fuel (serV v ++ ',' :: (serFields (f2 :: fs3) ++ '}' :: rest)) =
              some (v, ',' :: (serFields (f2 :: fs3) ++ '}' :: rest)) :=
            ihV v _ hv.1 (fun c0 hc0 => by simp at hc0; subst hc0; decide)
          have hF : parseFields fuel (serFields (f2 :: fs3) ++ '}' :: rest) =
              some (f2 :: fs3, rest) := ihF (f2 :: fs3) rest hv.2
          rw [parseFields.eq_def]
          simp [goStr_escape, hV, hF, string_mk_data]

theorem serV_length_pos (v : JsonValue) : 1 ≤ (serV v).length := by
  rcases serV_head v with ⟨c, cs, h, _, _⟩
  rw [h]
  simp

theorem jsize_le_len : ∀ n : Nat,
    (∀ v, jsize v ≤ n → jsize v ≤ (serV v).length) ∧
    (∀ xs, jsizeItems xs ≤ n → jsizeItems xs ≤ (serItems xs).length + 1) ∧
    (∀ fs, jsizeFields fs ≤ n → jsizeFields fs ≤ (serFields fs).length + 1) := by
  intro n
  induction n with
  | zero =>
    refine ⟨?_, ?_, ?_⟩
    · intro v h
      exact absurd h (by have := jsize_pos v; omega)
    · intro xs h
      exact absurd h (by have := jsizeItems_pos xs; omega)
    · intro fs h
      exact absurd h (by have := jsizeFields_pos fs; omega)
  | succ n ih =>
    obtain ⟨ihV, ihI, ihF⟩ := ih
    refine ⟨?_, ?_, ?_⟩
    · intro v hv
      cases v with
      | null => simp [jsize, serV]
      | bool b => cases b <;> simp [jsize, serV]
      | num m =>
        have := serV_length_pos (.num m)
        rw [show jsize (.num m) = 1 from rfl]
        omega
      | str s =>
        have := serV_length_pos (.str s)
        rw [show jsize (.str s) = 1 from rfl]
        omega
      | arr xs =>
        have hx : jsizeItems xs ≤ n := by
          rw [show jsize (.arr xs) = 1 + jsizeItems xs from rfl] at hv
          omega
        have h2 := ihI xs hx
        rw [show jsize (JsonValue.arr xs) = 1 + jsizeItems xs from rfl,
          show (serV (.arr xs)).length = 1 + ((serItems xs).length + 1) from by simp [serV, bracket]; omega]
        omega
      | obj fs =>
        have hx : jsizeFields fs ≤ n := by
          rw [show jsize (.obj fs) = 1 + jsizeFields fs from rfl] at hv
          omega
        have h2 := ihF fs hx
        rw [show jsize (JsonValue.obj fs) = 1 + jsizeFields fs from rfl,
          show (serV (.obj fs)).length = 1 + ((serFields fs).length + 1) from by simp [serV, bracket]; omega]
        omega
    · intro xs hxs
      cases xs with
      | nil => simp [jsizeItems, serItems]
      | cons x xs2 =>
        cases xs2 with
        | nil =>
          have h1 : jsize x ≤ n := by
            rw [show jsizeItems [x] =
              max (jsize x) (jsizeItems ([] : List JsonValue)) + 1 from rfl] at hxs
            have := Nat.le_max_left (jsize x) (jsizeItems ([] : List JsonValue))
            omega
          have h2 := ihV x h1
          have hm : max (jsize x) (jsizeItems ([] : List JsonValue)) ≤ (serV x).length :=
            max_le h2 (by have := serV_length_pos x; simp [jsizeItems]; omega)
          rw [show jsizeItems [x] =
            max (jsize x) (jsizeItems ([] : List JsonValue)) + 1 from rfl,
            show serItems [x] = serV x from rfl]
          omega
        | cons y xs3 =>
          have h1 : jsize x ≤ n ∧ jsizeItems (y :: xs3) ≤ n := by
            rw [show jsizeItems (x :: y :: xs3) =
              max (jsize x) (jsizeItems (y :: xs3)) + 1 from rfl] at hxs
            have hl := Nat.le_max_left (jsize x) (jsizeItems (y :: xs3))
            have hr := Nat.le_max_right (jsize x) (jsizeItems (y :: xs3))
            omega
          have h2 := ihV x h1.1
          have h3 := ihI (y :: xs3) h1.2
          have hlen : (serItems (x :: y :: xs3)).length =
              (serV x).length + ((serItems (y :: xs3)).length + 1) := by
            simp [serItems]
          have hm : max (jsize x) (jsizeItems (y :: xs3)) ≤
              (serV x).length + ((serItems (y :: xs3)).length + 1) :=
            max_le (by omega) (by omega)
          rw [show jsizeItems (x :: y :: xs3) =
            max (jsize x) (jsizeItems (y :: xs3)) + 1 from rfl, hlen]
          omega
    · intro fs hfs
      cases fs with
      | nil => simp [jsizeFields, serFields]
      | cons f fs2 =>
        rcases f with ⟨k, v⟩
        cases fs2 with
        | nil =>
          have h1 : jsize v ≤ n := by
            rw [show jsizeFields [(k, v)] =
              max (jsize v) (jsizeFields ([] : List (String × JsonValue))) + 1 from rfl] at hfs
            have := Nat.le_max_left (jsize v) (jsizeFields ([] : List (String × JsonValue)))
            omega
          have h2 := ihV v h1
          have hlen : (serFields [(k, v)]).length =
              (escapeChars k.data).length + (serV v).length + 3 := by
            simp [serFields]; omega
          have hm : max (jsize v) (jsizeFields ([] : List (String × JsonValue))) ≤
              (escapeChars k.data).length + (serV v).length + 2 :=
            max_le (by omega) (by simp [jsizeFields])
          rw [show jsizeFields [(k, v)] =
            max (jsize v) (jsizeFields ([] : List (String × JsonValue))) + 1 from rfl, hlen]
          omega
        | cons f2 fs3 =>
          have h1 : jsize v ≤ n ∧ jsizeFields (f2 :: fs3) ≤ n := by
            rw [show jsizeFields ((k, v) :: f2 :: fs3) =
              max (jsize v) (jsizeFields (f2 :: fs3)) + 1 from rfl] at hfs
            have hl := Nat.le_max_left (jsize v) (jsizeFields (f2 :: fs3))
            have hr := Nat.le_max_right (jsize v) (jsizeFields (f2 :: fs3))
            omega
          have h2 := ihV v h1.1
          have h3 := ihF (f2 :: fs3) h1.2
          have hlen : (serFields ((k, v) :: f2 :: fs3)).length =
              (escapeChars k.data).length + (serV v).length +
                ((serFields (f2 :: fs3)).length + 4) := by
            simp [serFields]; omega
          have hm : max (jsize v) (jsizeFields (f2 :: fs3)) ≤
              (escapeChars k.data).length + (serV v).length +
                ((serFields (f2 :: fs3)).length + 3) :=
            max_le (by omega) (by omega)
          rw [show jsizeFields ((k, v) :: f2 :: fs3) =
            max (jsize v) (jsizeFields (f2 :: fs3)) + 1 from rfl, hlen]
          omega

/-! Claim theorems. -/

/-- C1: stringify on every successfully built chain returns the concatenation,
in append order and with no separator, of each fragment prefix glyph followed
by its value (element: empty; id: hash; class: dot; attr: empty with the value
wrapped in brackets; pseudo-class: colon; pseudo-element: double colon); in
particular element(a).id(x).class(y) renders a#x.y and
element(a).attr(href).pseudoClass(focus) renders the bracketed form. -/
theorem stringify_renders_prefix_value_in_order :
    (∀ (first : Call) (rest : List Call) (elems : List Fragment),
        runChain first rest = .ok elems →
        (stringify elems).1 = String.join ((first :: rest).map Call.rendered)) ∧
    (runChain (.element "a") [.id "x", .cls "y"]).map (fun e => (stringify e).1) =
      .ok "a#x.y" ∧
    (runChain (.element "a") [.attr "href$=\".png\"", .pseudoClass "focus"]).map
        (fun e => (stringify e).1) =
      .ok "a[href$=\".png\"]:focus" := by
  refine ⟨?_, rfl, rfl⟩
  intro first rest elems h
  rw [runChain_ok h]
  show render ((first :: rest).map Call.frag) = _
  unfold render
  rw [List.map_map]
  congr 1
  exact List.map_congr_left (fun c _ => frag_rendered c)

theorem stringify_renders_prefix_value_in_order_witness :
    runChain (.element "q") [.cls "w"] = .ok [⟨"q", "", true, 0⟩, ⟨"w", ".", false, 2⟩] ∧
    (stringify [(⟨"q", "", true, 0⟩ : Fragment), ⟨"w", ".", false, 2⟩]).1 = "q.w" :=
  ⟨rfl, stringify_renders_prefix_value_in_order.1 (.element "q") [.cls "w"] _ rfl⟩

/-- C2 counterexample: appending element(a) to a chain that already contains
attr(href) does not raise the out-of-order error; the uniqueness check runs
first, both fragments carry the empty prefix glyph, and the duplicate error is
raised instead. -/
theorem append_element_after_attr_raises_duplicate :
    extendChain (startChain (.attr "href$=\".png\"")) (.element "a") =
      .error .duplicatePart ∧
    BuilderError.duplicatePart ≠ BuilderError.outOfOrder :=
  ⟨rfl, by decide⟩

/-- C2 amended: on every successfully built chain, appending a fragment whose
rank is strictly lower than the rank of some fragment already in the chain
fails; the error is the OutOfOrderError, except that when the new fragment is
one-of-a-kind (element, id or pseudo-element) and some fragment already in the
chain carries the same prefix glyph (an attribute fragment shares the empty
glyph with an element fragment), the uniqueness check fires first and the
failure is the DuplicateSelectorPartError instead. -/
theorem append_lower_rank_fails (first : Call) (rest : List Call)
    (elems : List Fragment) (c : Call)
    (hrun : runChain first rest = .ok elems)
    (hviol : ∃ el ∈ elems, c.frag.specific < el.specific) :
    extendChain elems c =
      .error
        (if (c.frag.tag || c.frag.unit == "::" || c.frag.unit == "#") &&
            elems.any (fun el => el.unit == c.frag.unit)
         then .duplicatePart else .outOfOrder) := by
  have helems := runChain_ok hrun
  have hb : ∀ el ∈ elems ++ [c.frag], el.specific < 10 := by
    intro el hel
    rcases List.mem_append.mp hel with h | h
    · rw [helems] at h
      rcases List.mem_map.mp h with ⟨cc, _, rfl⟩
      exact frag_specific_lt cc
    · simp at h
      rw [h]
      exact frag_specific_lt c
  have horder : checkOrder elems c.frag = .error .outOfOrder := by
    have hns : ¬ ((elems ++ [c.frag]).map Fragment.specific).Pairwise (· ≤ ·) := by
      rcases hviol with ⟨el, hel, hlt⟩
      intro hs
      have hp := List.pairwise_map.mp hs
      have hle := (List.pairwise_append.mp hp).2.2 el hel c.frag (by simp)
      omega
    cases hco : checkOrder elems c.frag with
    | ok u => cases u; exact absurd ((checkOrder_ok_iff elems c.frag hb).mp hco) hns
    | error e => rw [checkOrder_error_eq hco]
  by_cases hdup : ((c.frag.tag || c.frag.unit == "::" || c.frag.unit == "#") &&
      elems.any (fun el => el.unit == c.frag.unit)) = true
  · rw [if_pos hdup]
    rw [Bool.and_eq_true] at hdup
    obtain ⟨hone, hany⟩ := hdup
    have h1 : checkOneOfType elems c.frag = .error .duplicatePart := by
      unfold checkOneOfType
      simp only [beq_true]
      rw [if_pos hone]
      rcases List.any_eq_true.mp hany with ⟨el, hel, hunit⟩
      have hfind : (elems.find? (fun el =>
          (el.tag == c.frag.tag && el.unit == c.frag.unit) || el.unit == c.frag.unit)).isSome := by
        rw [List.find?_isSome]
        exact ⟨el, hel, by simp [hunit]⟩
      cases hf : elems.find? (fun el =>
          (el.tag == c.frag.tag && el.unit == c.frag.unit) || el.unit == c.frag.unit) with
      | none => rw [hf] at hfind; simp at hfind
      | some _ => rfl
    rw [extendChain_eq, h1]
  · rw [if_neg hdup]
    have h1 : checkOneOfType elems c.frag = .ok () := by
      unfold checkOneOfType
      simp only [beq_true]
      by_cases hone : (c.frag.tag || c.frag.unit == "::" || c.frag.unit == "#") = true
      · rw [if_pos hone]
        have hnone : elems.find? (fun el =>
            (el.tag == c.frag.tag && el.unit == c.frag.unit) || el.unit == c.frag.unit) = none := by
          rw [List.find?_eq_none]
          intro el hel hpred
          have hunit : (el.unit == c.frag.unit) = true := by
            rw [Bool.or_eq_true, Bool.and_eq_true] at hpred
            rcases hpred with hl | hr
            · exact hl.2
            · exact hr
          have : elems.any (fun el => el.unit == c.frag.unit) = true :=
            List.any_eq_true.mpr ⟨el, hel, hunit⟩
          exact hdup (by rw [hone, this]; rfl)
        rw [hnone]
      · rw [if_neg hone]
    rw [extendChain_eq, h1, horder]

theorem append_lower_rank_fails_witness :
    runChain (.cls "c") [] = .ok [Call.frag (.cls "c")] ∧
    (∃ el ∈ [Call.frag (.cls "c")], (Call.id "x").frag.specific < el.specific) ∧
    extendChain [Call.frag (.cls "c")] (.id "x") = .error .outOfOrder :=
  ⟨rfl, by decide,
    append_lower_rank_fails (.cls "c") [] [Call.frag (.cls "c")] (.id "x") rfl (by decide)⟩

/-- C3: appending a one-of-a-kind fragment (element, id or pseudo-element) to a
chain already containing a fragment of the same kind fails with the
DuplicateSelectorPartError, whose message states that element, id and
pseudo-element should not occur more than one time inside the selector (the
source message spells it with the word then); id(a).id(b) raises it. -/
theorem duplicate_one_of_a_kind_rejected (elems : List Fragment) (c1 c2 : Call)
    (hkind : c1.kind = c2.kind) (hone : c2.kind.oneOfAKind = true)
    (hmem : c1.frag ∈ elems) :
    extendChain elems c2 = .error .duplicatePart ∧
    BuilderError.duplicatePart.message =
      "Element, id and pseudo-element should not occur more then one time inside the selector" := by
  refine ⟨?_, rfl⟩
  have hunit : c1.frag.unit = c2.frag.unit := by
    cases c1 <;> cases c2 <;> simp_all [Call.kind, Call.frag]
  have htype : (c2.frag.tag || c2.frag.unit == "::" || c2.frag.unit == "#") = true := by
    cases c2 <;> simp_all [Call.kind, Kind.oneOfAKind, Call.frag]
  have h1 : checkOneOfType elems c2.frag = .error .duplicatePart := by
    unfold checkOneOfType
    simp only [beq_true]
    rw [if_pos htype]
    cases hf : elems.find? (fun el =>
        (el.tag == c2.frag.tag && el.unit == c2.frag.unit) || el.unit == c2.frag.unit) with
    | some _ => rfl
    | none =>
      exfalso
      have := List.find?_eq_none.mp hf c1.frag hmem
      exact this (by simp [hunit])
  rw [extendChain_eq, h1]

theorem duplicate_one_of_a_kind_rejected_witness :
    extendChain (startChain (.id "a")) (.id "b") = .error .duplicatePart :=
  (duplicate_one_of_a_kind_rejected (startChain (.id "a")) (.id "a") (.id "b")
    rfl rfl (by simp [startChain])).1

/-- C4: combine renders each selector argument eagerly through its stringify,
wraps every literal combinator token in exactly one space on each side,
concatenates the pieces in argument order, and the returned object exposes a
stringify returning that precomputed text; in particular combining
element(div).id(main), the plus token, and element(table).id(data) renders
div#main + table#data. -/
theorem combine_renders_eagerly :
    (∀ args : List CombineArg,
        (combine args).stringify =
          String.join (args.map (fun a =>
            match a with
            | .str t => " " ++ t ++ " "
            | .sel elems => (stringify elems).1))) ∧
    (∀ A B : List Fragment,
        runChain (.element "div") [.id "main"] = .ok A →
        runChain (.element "table") [.id "data"] = .ok B →
        (combine [.sel A, .str "+", .sel B]).stringify = "div#main + table#data") := by
  constructor
  · intro args
    rfl
  · intro A B hA hB
    rw [runChain_ok hA, runChain_ok hB]
    rfl

theorem combine_renders_eagerly_witness :
    (combine [.sel [⟨"div", "", true, 0⟩, ⟨"main", "#", false, 1⟩], .str "+",
        .sel [⟨"table", "", true, 0⟩, ⟨"data", "#", false, 1⟩]]).stringify =
      "div#main + table#data" :=
  combine_renders_eagerly.2 _ _ rfl rfl

/-- C5: stringify empties the elems array of the chain it is called on as a
side effect, so a second stringify on the same chain, with nothing appended in
between, returns the empty string. -/
theorem stringify_empties_chain :
    ∀ (st : BuilderState) (r : Nat),
      readRef (stringifyOp st r).1 r = [] ∧
      (stringifyOp (stringifyOp st r).1 r).2 = "" := by
  intro st r
  have hempty : readRef (stringifyOp st r).1 r = [] := by
    show readRef (writeRef st r []) r = []
    unfold readRef writeRef
    exact getD_set_same_default st.arrays [] r
  refine ⟨hempty, ?_⟩
  show render (readRef (stringifyOp st r).1 r) = ""
  rw [hempty]
  rfl

/-- C6: the facade holds no fragments and is never mutated by chaining calls;
a chaining call on the facade allocates a fresh array and leaves every other
array untouched, so two chains started from the facade are independent: after
facade.id(a) and facade.class(b), the first renders only its hash fragment and
the second only its dot fragment. -/
theorem facade_chains_are_independent :
    (∀ (st : BuilderState) (c : Call) (r : Nat),
        r ≠ (facadeCall st c).2 → readRef (facadeCall st c).1 r = readRef st r) ∧
    (∀ (st : BuilderState) (r : Nat) (c : Call),
        r ≠ facadeRef → readRef (chainCall st r c).1 facadeRef = readRef st facadeRef) ∧
    (readRef (facadeCall (facadeCall initState (.id "a")).1 (.cls "b")).1 facadeRef = [] ∧
     (facadeCall initState (.id "a")).2 ≠
       (facadeCall (facadeCall initState (.id "a")).1 (.cls "b")).2 ∧
     readRef (facadeCall (facadeCall initState (.id "a")).1 (.cls "b")).1
       (facadeCall initState (.id "a")).2 = [Call.frag (.id "a")] ∧
     readRef (facadeCall (facadeCall initState (.id "a")).1 (.cls "b")).1
       (facadeCall (facadeCall initState (.id "a")).1 (.cls "b")).2 = [Call.frag (.cls "b")] ∧
     (stringifyOp (facadeCall (facadeCall initState (.id "a")).1 (.cls "b")).1
       (facadeCall initState (.id "a")).2).2 = "#a" ∧
     (stringifyOp (facadeCall (facadeCall initState (.id "a")).1 (.cls "b")).1
       (facadeCall (facadeCall initState (.id "a")).1 (.cls "b")).2).2 = ".b") := by
  refine ⟨?_, ?_, rfl, by decide, rfl, rfl, rfl, rfl⟩
  · intro st c r hr
    show readRef ⟨st.arrays ++ [[c.frag]]⟩ r = readRef st r
    unfold readRef
    exact getD_append_singleton_ne st.arrays [] [c.frag] r hr
  · intro st r c hr
    cases hx : extendChain (readRef st r) c with
    | error e =>
      show readRef (chainCall st r c).1 facadeRef = readRef st facadeRef
      unfold chainCall
      rw [hx]
    | ok elems =>
      show readRef (chainCall st r c).1 facadeRef = readRef st facadeRef
      unfold chainCall
      rw [hx]
      show readRef (writeRef st r elems) facadeRef = readRef st facadeRef
      unfold readRef writeRef
      exact getD_set_ne st.arrays [] r facadeRef elems hr

theorem facade_chains_are_independent_witness :
    facadeRef ≠ (facadeCall initState (.id "a")).2 ∧
    readRef (facadeCall initState (.id "a")).1 facadeRef = readRef initState facadeRef :=
  ⟨by decide, facade_chains_are_independent.1 initState (.id "a") facadeRef (by decide)⟩

/-- C7: when an append fails with either error, no fragment is appended: the
store is unchanged, a subsequent stringify on the chain returns the same text
as before the failed call, and any later call on the chain behaves exactly as
it would have without the failed call. -/
theorem failed_append_preserves_chain (st : BuilderState) (r : Nat) (c : Call)
    (e : BuilderError) (h : (chainCall st r c).2 = .error e) :
    (chainCall st r c).1 = st ∧
    (stringifyOp (chainCall st r c).1 r).2 = (stringifyOp st r).2 ∧
    (∀ c2 : Call, chainCall (chainCall st r c).1 r c2 = chainCall st r c2) := by
  have hst : (chainCall st r c).1 = st := by
    unfold chainCall
    cases hx : extendChain (readRef st r) c with
    | error e2 => rfl
    | ok out =>
      exfalso
      unfold chainCall at h
      rw [hx] at h
      simp at h
  exact ⟨hst, by rw [hst], fun c2 => by rw [hst]⟩

theorem failed_append_preserves_chain_witness :
    (chainCall (facadeCall initState (.cls "c")).1 (facadeCall initState (.cls "c")).2
        (.id "x")).2 = .error .outOfOrder ∧
    (chainCall (facadeCall initState (.cls "c")).1 (facadeCall initState (.cls "c")).2
        (.id "x")).1 = (facadeCall initState (.cls "c")).1 :=
  ⟨rfl,
    (failed_append_preserves_chain (facadeCall initState (.cls "c")).1
      (facadeCall initState (.cls "c")).2 (.id "x") .outOfOrder rfl).1⟩

/-- C9: the rectangle factory returns an object whose width and height are the
two arguments and whose getArea returns their product, for all inputs, with no
validation and no error. -/
theorem rectangle_fields_and_area :
    ∀ w h : Int, (Rectangle w h).width = w ∧ (Rectangle w h).height = h ∧
      (Rectangle w h).getArea = w * h := by
  intro w h
  exact ⟨rfl, rfl, rfl⟩

/-- C10: extending a chain that already contains a fragment mutates the shared
elems array in place: the new chain context references the very same array, so
after a = facade.element(e) and b = a.id(x), a renders e#x (not e) and that
stringify, having emptied the shared array, also empties b; independence holds
only between chains started directly from the facade. -/
theorem chain_extension_aliases_receiver :
    (∀ (st : BuilderState) (r : Nat) (c : Call) (st2 : BuilderState) (r2 : Nat),
        r < st.arrays.length →
        chainCall st r c = (st2, .ok r2) →
        r2 = r ∧ readRef st2 r = readRef st r ++ [c.frag]) ∧
    (aliasStep.2 = .ok aliasRa ∧
     readRef aliasStep.1 aliasRa = [Call.frag (.element "e"), Call.frag (.id "x")] ∧
     (stringifyOp aliasStep.1 aliasRa).2 = "e#x" ∧
     readRef (stringifyOp aliasStep.1 aliasRa).1 aliasRa = []) := by
  refine ⟨?_, rfl, rfl, rfl, rfl⟩
  intro st r c st2 r2 hlt h
  unfold chainCall at h
  cases hx : extendChain (readRef st r) c with
  | error e => rw [hx] at h; simp at h
  | ok out =>
    rw [hx] at h
    have hpair := Prod.mk.injEq .. ▸ h
    have hst2 : writeRef st r out = st2 := congrArg Prod.fst h
    have hr2 : r2 = r := (Except.ok.inj (congrArg Prod.snd h)).symm
    refine ⟨hr2, ?_⟩
    rw [← hst2, extendChain_ok hx]
    show (st.arrays.set r (readRef st r ++ [c.frag])).getD r [] = readRef st r ++ [c.frag]
    exact getD_set_self st.arrays [] r (readRef st r ++ [c.frag]) hlt

/-- C8: for every cycle-free JSON-representable plain value and every
prototype, parsing the serialized text and attaching the prototype returns an
object whose data is deep-equal (here: equal) to the value and which responds
to every operation defined on the prototype; in particular parsing the text
alone recovers the value. -/
theorem fromJSON_getJSON_roundtrip :
    ∀ (v : JsonValue) (p : List String),
      fromJSON p (getJSON v) = some ⟨v, p⟩ ∧ (∀ op ∈ p, RespondsTo ⟨v, p⟩ op) := by
  intro v p
  refine ⟨?_, fun op hop => hop⟩
  have hfuel : jsize v ≤ (serV v).length + 1 := by
    have h1 := (jsize_le_len (jsize v)).1 v le_rfl
    omega
  have h := (parse_serV ((serV v).length + 1)).1 v [] hfuel (by intro c hc; simp at hc)
  rw [List.append_nil] at h
  have hdef : fromJSON p (getJSON v) =
      (match parseV ((serV v).length + 1) (serV v) with
       | none => none
       | some (v2, rest) => if rest = [] then some ⟨v2, p⟩ else none) := rfl
  rw [hdef, h]
  simp

theorem fromJSON_getJSON_roundtrip_witness :
    fromJSON ["getArea"] (getJSON (.obj [("radius", .num 10)])) =
      some ⟨.obj [("radius", .num 10)], ["getArea"]⟩ ∧
    RespondsTo ⟨.obj [("radius", .num 10)], ["getArea"]⟩ "getArea" :=
  ⟨(fromJSON_getJSON_roundtrip (.obj [("radius", .num 10)]) ["getArea"]).1,
   (fromJSON_getJSON_roundtrip (.obj [("radius", .num 10)]) ["getArea"]).2 "getArea" (by simp)⟩

theorem chain_extension_aliases_receiver_witness :
    aliasRa < aliasSt1.arrays.length ∧
    chainCall aliasSt1 aliasRa (.id "x") = (aliasStep.1, .ok aliasRa) ∧
    readRef aliasStep.1 aliasRa = readRef aliasSt1 aliasRa ++ [Call.frag (.id "x")] :=
  ⟨by decide, rfl,
    (chain_extension_aliases_receiver.1 aliasSt1 aliasRa (.id "x") aliasStep.1 aliasRa
      (by decide) rfl).2⟩

end CoreJs
